import Mathlib

/-!
Verification of libacrypt (src/crypt.c, src/crypt_main.c) against its
natural-language specification.  The C code is shallowly embedded: byte
buffers become `List Nat` (each element `< 256` where the code guarantees
it), machine arithmetic becomes `Nat` arithmetic with explicit `% 256`,
and the raw `read`/`write` primitives become oracles supplying their
return values.
-/

/-- The `crypt_context` struct from src/crypt.h: a key buffer and its
length. -/
structure crypt_context where
  key : List Nat
  keylen : Nat

/-- The loop body of `crypt_buffer` (src/crypt.c lines 72-80), acting on
the working copy `w` of the key with cursor `i`:
`k[i] = (k[i] + i) % 256; output[cnt] = input[cnt] ^ k[i]; i = ++i % keylen`. -/
def crypt_loop (keylen : Nat) : List Nat → List Nat → Nat → List Nat
  | [], _, _ => []
  | b :: rest, w, i =>
      let kb := (w.getD i 0 + i) % 256
      Nat.xor b kb :: crypt_loop keylen rest (w.set i kb) ((i + 1) % keylen)

/-- `crypt_buffer` from src/crypt.c: copies the caller's key into a fresh
working buffer and runs the transform loop from cursor 0.  The input list
stands for `input[0..length)`. -/
def crypt_buffer (context : crypt_context) (input : List Nat) : List Nat :=
  crypt_loop context.keylen input context.key 0

/-- Convenience wrapper: transform with a key list, `keylen` being its
length (how `main` always calls `crypt_buffer`). -/
def transform (key input : List Nat) : List Nat :=
  crypt_buffer ⟨key, key.length⟩ input

/-- Modelled from the spec: the keystream of section 4.1 — starting from a
working copy `w` of the key and cursor `i`, each step yields
`w[i] := (w[i] + i) mod 256` and advances `i := (i + 1) mod keylen`. -/
def keystream_go (keylen : Nat) : Nat → List Nat → Nat → List Nat
  | 0, _, _ => []
  | n + 1, w, i =>
      let kb := (w.getD i 0 + i) % 256
      kb :: keystream_go keylen n (w.set i kb) ((i + 1) % keylen)

/-- Modelled from the spec: `transform(key, input)` of section 4.1 —
`output[cnt] = p[cnt] XOR w[i]` where the `w[i]` values form the keystream
derived from a fresh working copy of the key starting at cursor 0. -/
def spec_transform (key input : List Nat) : List Nat :=
  List.zipWith Nat.xor input (keystream_go key.length input.length key 0)

theorem keystream_go_length (keylen n : Nat) :
    ∀ (w : List Nat) (i : Nat), (keystream_go keylen n w i).length = n := by
  induction n with
  | zero => intro w i; rfl
  | succ m ih => intro w i; simp [keystream_go, ih]

theorem crypt_loop_eq_zipWith (keylen : Nat) (input : List Nat) :
    ∀ (w : List Nat) (i : Nat),
      crypt_loop keylen input w i =
        List.zipWith Nat.xor input (keystream_go keylen input.length w i) := by
  induction input with
  | nil => intro w i; rfl
  | cons b rest ih =>
      intro w i
      simp [crypt_loop, keystream_go, ih]

theorem crypt_loop_length (keylen : Nat) (input : List Nat) :
    ∀ (w : List Nat) (i : Nat), (crypt_loop keylen input w i).length = input.length := by
  induction input with
  | nil => intro w i; rfl
  | cons b rest ih => intro w i; simp [crypt_loop, ih]

/-- Claim C1: for every key of length 1-256, `crypt_buffer` computes
exactly the transform specified in section 4.1 of the spec (working copy,
cursor update, XOR emission, cursor advance), and the output has exactly
as many bytes as the input. -/
theorem crypt_buffer_matches_spec (key input : List Nat)
    (h1 : 1 ≤ key.length) (h2 : key.length ≤ 256) :
    crypt_buffer ⟨key, key.length⟩ input = spec_transform key input ∧
      (crypt_buffer ⟨key, key.length⟩ input).length = input.length := by
  constructor
  · exact crypt_loop_eq_zipWith key.length input key 0
  · exact crypt_loop_length key.length input key 0

/-- Witness for C1: the claim instantiated at key "AB" and input "AA". -/
theorem crypt_buffer_matches_spec_witness :
    crypt_buffer ⟨[0x41, 0x42], 2⟩ [0x41, 0x41] = spec_transform [0x41, 0x42] [0x41, 0x41] ∧
      (crypt_buffer ⟨[0x41, 0x42], 2⟩ [0x41, 0x41]).length = 2 :=
  crypt_buffer_matches_spec [0x41, 0x42] [0x41, 0x41] (by decide) (by decide)

/-- Claim C3: the known vector — key `[0x41, 0x42]`, input `[0x41, 0x41]`,
one call to `crypt_buffer`, ciphertext `[0x00, 0x02]`. -/
theorem crypt_buffer_known_vector :
    crypt_buffer ⟨[0x41, 0x42], 2⟩ [0x41, 0x41] = [0x00, 0x02] := by
  decide

theorem xor_cancel (b k : Nat) : Nat.xor (Nat.xor b k) k = b :=
  Nat.xor_cancel_right k b

theorem crypt_loop_invol (keylen : Nat) (input : List Nat) :
    ∀ (w : List Nat) (i : Nat),
      crypt_loop keylen (crypt_loop keylen input w i) w i = input := by
  induction input with
  | nil => intro w i; rfl
  | cons b rest ih =>
      intro w i
      simp [crypt_loop, ih, xor_cancel]

/-- Cut a byte list into successive blocks of the given lengths: the
partition of a stream into the blocks fed one by one to `crypt_buffer` by
the pipeline. -/
def split_by_lengths : List Nat → List Nat → List (List Nat)
  | [], _ => []
  | n :: ns, xs => xs.take n :: split_by_lengths ns (xs.drop n)

/-- Apply `crypt_buffer` blockwise under the partition `lens` and
concatenate the results, as the pipeline does block by block. -/
def transform_blockwise (key : List Nat) (lens : List Nat) (p : List Nat) : List Nat :=
  ((split_by_lengths lens p).map (transform key)).flatten

theorem split_by_lengths_of_map_length (bs : List (List Nat)) :
    split_by_lengths (bs.map List.length) bs.flatten = bs := by
  induction bs with
  | nil => rfl
  | cons b rest ih =>
      simp [split_by_lengths, List.take_left, List.drop_left, ih]

theorem split_by_lengths_map_length (lens : List Nat) :
    ∀ p : List Nat, lens.sum = p.length →
      (split_by_lengths lens p).map List.length = lens := by
  induction lens with
  | nil => intro p h; rfl
  | cons n ns ih =>
      intro p h
      simp only [List.sum_cons] at h
      have hn : n ≤ p.length := by omega
      simp [split_by_lengths, List.length_take, Nat.min_eq_left hn]
      exact ih (p.drop n) (by simp [List.length_drop]; omega)

theorem split_by_lengths_flatten (lens : List Nat) :
    ∀ p : List Nat, lens.sum = p.length →
      (split_by_lengths lens p).flatten = p := by
  induction lens with
  | nil =>
      intro p h
      simp only [List.sum_nil] at h
      simp [split_by_lengths, List.length_eq_zero.mp h.symm]
  | cons n ns ih =>
      intro p h
      simp only [List.sum_cons] at h
      simp [split_by_lengths, ih (p.drop n) (by simp [List.length_drop]; omega)]

theorem transform_length (key b : List Nat) : (transform key b).length = b.length :=
  crypt_loop_length key.length b key 0

theorem transform_invol (key b : List Nat) : transform key (transform key b) = b :=
  crypt_loop_invol key.length b key 0

theorem map_fixed_of_pointwise {α : Type} (g : α → α) :
    ∀ bs : List α, (∀ b, g b = b) → bs.map g = bs := by
  intro bs hg
  induction bs with
  | nil => rfl
  | cons b rest ih => simp [hg, ih]

/-- Claim C2: for every key of length 1-256 and every partition `B1` of
the plaintext, transforming blockwise under `B1` and then transforming the
result blockwise under the same partition recovers the plaintext; and for
key "AB", plaintext `[0x41, 0x41, 0x41]` produced under the one-block
partition `[3]`, decrypting under the different partition `[1, 2]` does
not recover the plaintext. -/
theorem blockwise_roundtrip_same_partition :
    (∀ (key p lens : List Nat), 1 ≤ key.length → key.length ≤ 256 →
        lens.sum = p.length →
        transform_blockwise key lens (transform_blockwise key lens p) = p) ∧
      transform_blockwise [0x41, 0x42] [1, 2]
          (transform_blockwise [0x41, 0x42] [3] [0x41, 0x41, 0x41]) ≠
        [0x41, 0x41, 0x41] := by
  constructor
  · intro key p lens h1 h2 hsum
    have hbs : (split_by_lengths lens p).map List.length = lens :=
      split_by_lengths_map_length lens p hsum
    have hjoin : (split_by_lengths lens p).flatten = p :=
      split_by_lengths_flatten lens p hsum
    have hlens2 :
        (((split_by_lengths lens p).map (transform key)).map List.length) = lens := by
      rw [List.map_map]
      have hcomp : (List.length ∘ transform key) = fun b : List Nat => b.length := by
        funext b; exact transform_length key b
      rw [hcomp]
      simpa using hbs
    have hsplit2 : ∀ cs : List (List Nat), cs.map List.length = lens →
        split_by_lengths lens cs.flatten = cs := by
      intro cs hcs
      rw [← hcs]
      exact split_by_lengths_of_map_length cs
    unfold transform_blockwise
    rw [hsplit2 _ hlens2, List.map_map,
      map_fixed_of_pointwise (transform key ∘ transform key) _ (transform_invol key),
      hjoin]
  · decide

/-- The four byte buffers `crypt_buffer` can reach: the caller's key
(`context->key`), the caller's input and output buffers, and the freshly
allocated working copy (`ctx->key`), plus the caller's `context->keylen`
value. -/
structure MemState where
  key : List Nat
  keylen : Nat
  input : List Nat
  output : List Nat
  work : List Nat

/-- One iteration of the `crypt_buffer` loop over the explicit memory
state: it writes `work[i]` and `output[cnt]` and advances the cursor;
no other location is touched. -/
def crypt_iter (kl i cnt : Nat) (s : MemState) : MemState × Nat :=
  let kb := (s.work.getD i 0 + i) % 256
  let s1 := { s with work := s.work.set i kb }
  let s2 := { s1 with output := s1.output.set cnt (Nat.xor (s1.input.getD cnt 0) kb) }
  (s2, (i + 1) % kl)

/-- The `crypt_buffer` loop over the explicit memory state, running
`n` iterations (`cnt` from its start value upward). -/
def crypt_run (kl : Nat) : Nat → Nat → Nat → MemState → MemState
  | 0, _, _, s => s
  | n + 1, i, cnt, s =>
      let p := crypt_iter kl i cnt s
      crypt_run kl n p.2 (cnt + 1) p.1

/-- `crypt_buffer` over the explicit memory state: the working buffer is
initialised as a copy of the caller's key (the `memcpy` in src/crypt.c),
then the loop runs for `length` iterations from cursor 0. -/
def crypt_buffer_mem (context : crypt_context) (output input : List Nat)
    (length : Nat) : MemState :=
  crypt_run context.keylen length 0 0
    { key := context.key, keylen := context.keylen, input := input,
      output := output, work := context.key }

theorem crypt_run_frame (kl : Nat) (n : Nat) :
    ∀ (i cnt : Nat) (s : MemState),
      (crypt_run kl n i cnt s).key = s.key ∧
        (crypt_run kl n i cnt s).keylen = s.keylen ∧
        (crypt_run kl n i cnt s).input = s.input := by
  induction n with
  | zero => intro i cnt s; exact ⟨rfl, rfl, rfl⟩
  | succ m ih => intro i cnt s; simpa [crypt_run, crypt_iter] using ih _ _ _

/-- Claim C8: `crypt_buffer` leaves the caller's key bytes, key length
and input buffer exactly as they were; only the working copy and the
output buffer are written. -/
theorem crypt_buffer_frame (context : crypt_context) (output input : List Nat)
    (length : Nat) :
    (crypt_buffer_mem context output input length).key = context.key ∧
      (crypt_buffer_mem context output input length).keylen = context.keylen ∧
      (crypt_buffer_mem context output input length).input = input :=
  crypt_run_frame context.keylen length 0 0 _

/-- Witness for C8: the frame property at the known vector. -/
theorem crypt_buffer_frame_witness :
    (crypt_buffer_mem ⟨[0x41, 0x42], 2⟩ [0, 0] [0x41, 0x41] 2).key = [0x41, 0x42] ∧
      (crypt_buffer_mem ⟨[0x41, 0x42], 2⟩ [0, 0] [0x41, 0x41] 2).keylen = 2 ∧
      (crypt_buffer_mem ⟨[0x41, 0x42], 2⟩ [0, 0] [0x41, 0x41] 2).input = [0x41, 0x41] :=
  crypt_buffer_frame ⟨[0x41, 0x42], 2⟩ [0, 0] [0x41, 0x41] 2

/-- The `crypt_buffer` loop with the cursor advance `i = ++i % keylen`
guarded: modulo by zero has no valid result, so the loop yields `none`
when `keylen = 0`. -/
def crypt_loop_checked (keylen : Nat) : List Nat → List Nat → Nat → Option (List Nat)
  | [], _, _ => some []
  | b :: rest, w, i =>
      let kb := (w.getD i 0 + i) % 256
      if keylen = 0 then none
      else
        (crypt_loop_checked keylen rest (w.set i kb) ((i + 1) % keylen)).map
          (fun out => Nat.xor b kb :: out)

/-- The key-presence check at src/crypt_main.c lines 490-494: the run is
rejected only when no `-k` key was given (`keylen == 0`) and no key file
was named (`kfile == NULL`).  Returns `true` when the check passes. -/
def key_check (keylenArg : Nat) (kfileSupplied : Bool) : Bool :=
  !(keylenArg == 0 && !kfileSupplied)

/-- The key length `main` hands to `crypt_buffer`: when a key file is
named, `file_size` of that file (its byte count); otherwise the length of
the `-k` argument. -/
def effective_keylen (keylenArg : Nat) (kfile : Option (List Nat)) : Nat :=
  match kfile with
  | some content => content.length
  | none => keylenArg

/-- Claim C10: `crypt_buffer` never validates `keylen`; with `keylen = 0`
and a nonempty input the guarded cursor advance is modulo 0 and has no
result, while any `keylen ≥ 1` makes the guarded loop agree with the
unguarded one; and the zero-key state is reachable: an empty key file
passes the key-presence check yet yields `keylen = 0`. -/
theorem crypt_buffer_keylen_zero :
    (∀ (input w : List Nat) (i : Nat), 1 ≤ input.length →
        crypt_loop_checked 0 input w i = none) ∧
      (∀ (keylen : Nat) (input w : List Nat) (i : Nat), 1 ≤ keylen →
        crypt_loop_checked keylen input w i = some (crypt_loop keylen input w i)) ∧
      key_check 0 true = true ∧ effective_keylen 0 (some []) = 0 := by
  refine ⟨?_, ?_, rfl, rfl⟩
  · intro input w i h
    match input with
    | b :: rest => simp [crypt_loop_checked]
  · intro keylen input w i h
    induction input generalizing w i with
    | nil => rfl
    | cons b rest ih =>
        simp [crypt_loop_checked, crypt_loop, ih]
        omega

/-- Witness for C10: the guarded loop at `keylen = 0` on a one-byte input,
and its agreement with the unguarded loop at `keylen = 2`. -/
theorem crypt_buffer_keylen_zero_witness :
    crypt_loop_checked 0 [0x41] [] 0 = none ∧
      crypt_loop_checked 2 [0x41, 0x41] [0x41, 0x42] 0 =
        some (crypt_loop 2 [0x41, 0x41] [0x41, 0x42] 0) :=
  ⟨crypt_buffer_keylen_zero.1 [0x41] [] 0 (by decide),
    crypt_buffer_keylen_zero.2.1 2 [0x41, 0x41] [0x41, 0x42] 0 (by decide)⟩

/-- Witness for C2: the round-trip conjunct instantiated at key "AB",
plaintext `[0x41, 0x41, 0x41]` and partition `[1, 2]`. -/
theorem blockwise_roundtrip_same_partition_witness :
    transform_blockwise [0x41, 0x42] [1, 2]
        (transform_blockwise [0x41, 0x42] [1, 2] [0x41, 0x41, 0x41]) =
      [0x41, 0x41, 0x41] :=
  blockwise_roundtrip_same_partition.1 [0x41, 0x42] [0x41, 0x41, 0x41] [1, 2]
    (by decide) (by decide) (by decide)

/-- MAX_INPUT_SIZE from src/crypt_main.c. -/
def MAX_INPUT_SIZE : Nat := 1024

/-- MAX_READ_RETRY from src/crypt_main.c. -/
def MAX_READ_RETRY : Nat := 15

/-- INT_MAX, the fake size `file_size` reports for stdin. -/
def STDIN_FAKE_SIZE : Nat := 2147483647

/-- Result of one `load_file` call on a regular (non-stdin) descriptor:
either the count the last `read` returned, or the `-EAGAIN` failure. -/
inductive LoadResult where
  | ok (n : Int)
  | err
deriving DecidableEq

/-- The retry loop of `load_file` (src/crypt_main.c lines 354-390) for a
regular file: `reads k` is the value the `(k+1)`-th raw `read` call
returns.  State: `ret` (last read count, initially 0), `retry` (initially
15).  The loop runs while `ret != maxsize && retry > 0`; each pass
decrements `retry`, reads, and fails with `-EAGAIN` exactly when
`retry == 0 && ret < 0`.  The second component counts raw reads issued. -/
def lf_go (maxsize : Int) (reads : Nat → Int) : Int → Nat → Nat → LoadResult × Nat
  | ret, 0, used => (.ok ret, used)
  | ret, retry + 1, used =>
      if ret = maxsize then (.ok ret, used)
      else
        let r := reads used
        if retry = 0 ∧ r < 0 then (.err, used + 1)
        else lf_go maxsize reads r retry (used + 1)

/-- `load_file` on a regular descriptor: the retry loop started with
`ret = 0`, `retry = MAX_READ_RETRY`, no reads issued yet. -/
def load_file (maxsize : Int) (reads : Nat → Int) : LoadResult × Nat :=
  lf_go maxsize reads 0 MAX_READ_RETRY 0

/-- Outcome of the block loop of `main` (src/crypt_main.c lines 560-605),
carrying the ciphertext blocks handed to `store_file` in order.
`ioError` is the abort when `load_file` delivered fewer bytes than
expected for a regular source; `starved` marks runs whose read oracle was
exhausted while the loop still wanted a block (outside any claim). -/
inductive RunResult where
  | ok (written : List (List Nat))
  | ioError (written : List (List Nat))
  | starved (written : List (List Nat))
deriving DecidableEq

/-- The block loop of `main`: `remaining` counts down from `filelen`
(`STDIN_FAKE_SIZE` when the source is stdin); each iteration wants
`blocks_read = min remaining MAX_INPUT_SIZE` bytes, receives the next
block `r` from the source oracle (`nread = r.length`), aborts when
`nread < blocks_read` on a non-stdin source, otherwise encrypts the
`nread` bytes, stores the ciphertext, and for stdin stops successfully
once `nread < MAX_INPUT_SIZE`. -/
def main_loop (isStdin : Bool) (key : List Nat) : Nat → List (List Nat) → RunResult
  | 0, _ => .ok []
  | _ + 1, [] => .starved []
  | remaining + 1, r :: rest =>
      let blocksRead := min (remaining + 1) MAX_INPUT_SIZE
      if r.length < blocksRead ∧ ¬isStdin then .ioError []
      else
        let out := crypt_buffer ⟨key, key.length⟩ r
        if isStdin ∧ r.length < MAX_INPUT_SIZE then .ok [out]
        else
          match main_loop isStdin key (remaining + 1 - blocksRead) rest with
          | .ok ws => .ok (out :: ws)
          | .ioError ws => .ioError (out :: ws)
          | .starved ws => .starved (out :: ws)

/-- Claim C4: with stdin as the source, a block read that returns fewer
than MAX_INPUT_SIZE bytes is not an error: after any number of full
blocks, the short block is transformed, written, and the loop terminates
successfully without consuming further reads. -/
theorem stdin_short_read_terminates (key : List Nat) (fulls : List (List Nat))
    (r : List Nat) (rest : List (List Nat)) (remaining : Nat)
    (hfull : ∀ b ∈ fulls, b.length = MAX_INPUT_SIZE)
    (hr : r.length < MAX_INPUT_SIZE)
    (hrem : MAX_INPUT_SIZE * (fulls.length + 1) ≤ remaining) :
    main_loop true key remaining (fulls ++ r :: rest) =
      .ok (fulls.map (transform key) ++ [transform key r]) := by
  induction fulls generalizing remaining with
  | nil =>
      obtain ⟨m, rfl⟩ : ∃ m, remaining = m + 1 := by
        refine ⟨remaining - 1, ?_⟩
        unfold MAX_INPUT_SIZE at hrem
        omega
      have hmin : min (m + 1) MAX_INPUT_SIZE = MAX_INPUT_SIZE := by
        unfold MAX_INPUT_SIZE at hrem ⊢
        omega
      simp [main_loop, hmin, hr, transform]
  | cons f fs ih =>
      obtain ⟨m, rfl⟩ : ∃ m, remaining = m + 1 := by
        refine ⟨remaining - 1, ?_⟩
        unfold MAX_INPUT_SIZE at hrem
        omega
      have hmin : min (m + 1) MAX_INPUT_SIZE = MAX_INPUT_SIZE := by
        simp only [List.length_cons] at hrem
        unfold MAX_INPUT_SIZE at hrem ⊢
        omega
      have hf : f.length = MAX_INPUT_SIZE := hfull f (by simp)
      have hrec := ih (m + 1 - MAX_INPUT_SIZE) (fun b hb => hfull b (by simp [hb]))
        (by simp only [List.length_cons] at hrem; unfold MAX_INPUT_SIZE at hrem ⊢; omega)
      simp [main_loop, hmin, hf, hrec, transform]

/-- Witness for C4: a single 3-byte stdin read ends the run successfully. -/
theorem stdin_short_read_terminates_witness :
    main_loop true [65] STDIN_FAKE_SIZE [[1, 2, 3]] =
      .ok (List.map (transform [65]) [] ++ [transform [65] [1, 2, 3]]) :=
  stdin_short_read_terminates [65] [] [1, 2, 3] [] STDIN_FAKE_SIZE
    (by simp) (by decide) (by decide)

theorem lf_go_used_le (maxsize : Int) (reads : Nat → Int) :
    ∀ (retry : Nat) (ret : Int) (used : Nat),
      (lf_go maxsize reads ret retry used).2 ≤ used + retry := by
  intro retry
  induction retry with
  | zero => intro ret used; simp [lf_go]
  | succ t ih =>
      intro ret used
      simp only [lf_go]
      split
      · simp
      · split
        · simp
        · have := ih (reads used) (used + 1)
          omega

theorem lf_go_err (maxsize : Int) (reads : Nat → Int) :
    ∀ (retry : Nat) (ret : Int) (used : Nat),
      (lf_go maxsize reads ret retry used).1 = LoadResult.err →
      (lf_go maxsize reads ret retry used).2 = used + retry ∧
        reads (used + retry - 1) < 0 := by
  intro retry
  induction retry with
  | zero => intro ret used h; simp [lf_go] at h
  | succ t ih =>
      intro ret used h
      simp only [lf_go] at h ⊢
      by_cases h1 : ret = maxsize
      · simp [h1] at h
      · simp only [if_neg h1] at h ⊢
        by_cases h2 : t = 0 ∧ reads used < 0
        · obtain ⟨ht, hrd⟩ := h2
          subst ht
          simp [hrd]
        · simp only [if_neg h2] at h ⊢
          have hrec := ih (reads used) (used + 1) h
          constructor
          · rw [hrec.1]; omega
          · have h2' := hrec.2
            rwa [show used + 1 + t - 1 = used + (t + 1) - 1 from by omega] at h2'

theorem main_loop_regular_abort (key : List Nat) (fulls : List (List Nat))
    (r : List Nat) (rest : List (List Nat)) (remaining : Nat)
    (hfull : ∀ b ∈ fulls, b.length = MAX_INPUT_SIZE)
    (hr : r.length < MAX_INPUT_SIZE)
    (hrem : MAX_INPUT_SIZE * (fulls.length + 1) ≤ remaining) :
    main_loop false key remaining (fulls ++ r :: rest) =
      .ioError (fulls.map (transform key)) := by
  induction fulls generalizing remaining with
  | nil =>
      obtain ⟨m, rfl⟩ : ∃ m, remaining = m + 1 := by
        refine ⟨remaining - 1, ?_⟩
        unfold MAX_INPUT_SIZE at hrem
        omega
      have hmin : min (m + 1) MAX_INPUT_SIZE = MAX_INPUT_SIZE := by
        unfold MAX_INPUT_SIZE at hrem ⊢
        omega
      simp [main_loop, hmin, hr]
  | cons f fs ih =>
      obtain ⟨m, rfl⟩ : ∃ m, remaining = m + 1 := by
        refine ⟨remaining - 1, ?_⟩
        unfold MAX_INPUT_SIZE at hrem
        omega
      have hmin : min (m + 1) MAX_INPUT_SIZE = MAX_INPUT_SIZE := by
        simp only [List.length_cons] at hrem
        unfold MAX_INPUT_SIZE at hrem ⊢
        omega
      have hf : f.length = MAX_INPUT_SIZE := hfull f (by simp)
      have hrec := ih (m + 1 - MAX_INPUT_SIZE) (fun b hb => hfull b (by simp [hb]))
        (by simp only [List.length_cons] at hrem; unfold MAX_INPUT_SIZE at hrem ⊢; omega)
      simp [main_loop, hmin, hf, hrec, transform]

/-- Claim C5: for a regular source, `load_file` issues at most
MAX_READ_RETRY (15) raw reads; it reports the `-EAGAIN` I/O failure only
when the 15th and final read still returned fewer bytes than the amount
requested; and whenever the bytes delivered for a non-terminal block fall
short of the request, the pipeline aborts with an error, writing nothing
after the blocks that preceded the failing one. -/
theorem load_file_retry_policy :
    (∀ (maxsize : Int) (reads : Nat → Int),
        (load_file maxsize reads).2 ≤ MAX_READ_RETRY) ∧
      (∀ (maxsize : Int) (reads : Nat → Int), 0 ≤ maxsize →
        (load_file maxsize reads).1 = LoadResult.err →
        (load_file maxsize reads).2 = MAX_READ_RETRY ∧
          reads (MAX_READ_RETRY - 1) < maxsize) ∧
      (∀ (key : List Nat) (fulls : List (List Nat)) (r : List Nat)
          (rest : List (List Nat)) (remaining : Nat),
        (∀ b ∈ fulls, b.length = MAX_INPUT_SIZE) → r.length < MAX_INPUT_SIZE →
        MAX_INPUT_SIZE * (fulls.length + 1) ≤ remaining →
        main_loop false key remaining (fulls ++ r :: rest) =
          .ioError (fulls.map (transform key))) := by
  refine ⟨?_, ?_, main_loop_regular_abort⟩
  · intro maxsize reads
    simpa using lf_go_used_le maxsize reads MAX_READ_RETRY 0 0
  · intro maxsize reads hm herr
    have h := lf_go_err maxsize reads MAX_READ_RETRY 0 0 herr
    exact ⟨by simpa using h.1, lt_of_lt_of_le (by simpa using h.2) hm⟩

/-- Witness for C5: a raw read that always returns -1 exhausts the 15
attempts and fails, and a 2-byte delivery against a 1024-byte request on a
regular source aborts the pipeline with nothing written. -/
theorem load_file_retry_policy_witness :
    (load_file 5 (fun _ => -1)).2 ≤ MAX_READ_RETRY ∧
      ((load_file 5 (fun _ => -1)).2 = MAX_READ_RETRY ∧ (-1 : Int) < 5) ∧
      main_loop false [65] 2048 [[1, 2]] = .ioError [] :=
  ⟨load_file_retry_policy.1 5 (fun _ => -1),
    load_file_retry_policy.2.1 5 (fun _ => -1) (by decide) (by decide),
    load_file_retry_policy.2.2 [65] [] [1, 2] [] 2048 (by simp) (by decide) (by decide)⟩

/-- The sink side of `store_file` (src/crypt_main.c lines 400-449):
whether the destination is stdout, whether the named file has been opened
yet (`fd_out != -1`), the named file's byte contents, the bytes written to
stdout, and the recorded creation effects (`umask(0)`, open mode 0666). -/
structure SinkState where
  isStdout : Bool
  opened : Bool
  fileContents : List Nat
  stdoutWritten : List Nat
  umaskCleared : Bool
  openMode : Nat
deriving DecidableEq

/-- One `store_file` call.  `writeRet` is the value the raw `write`
returns; when nonnegative, the first `writeRet` bytes of `buf` land in the
destination.  For a named sink the first call clears the umask and opens
the file with `O_RDWR | O_TRUNC | O_CREAT, 0666`, discarding any prior
contents; every call appends at the current end.  The call returns
`-EAGAIN` exactly when `writeRet < 0` (open failures are outside this
model: the oracle decides only writes). -/
def store_file (s : SinkState) (buf : List Nat) (writeRet : Int) : SinkState × Int :=
  if s.isStdout then
    if writeRet < 0 then (s, -11)
    else ({ s with stdoutWritten := s.stdoutWritten ++ buf.take writeRet.toNat }, 0)
  else
    let s1 := if s.opened then s
              else { s with opened := true, fileContents := [],
                            umaskCleared := true, openMode := 438 }
    if writeRet < 0 then (s1, -11)
    else ({ s1 with fileContents := s1.fileContents ++ buf.take writeRet.toNat }, 0)

/-- Claim C6 counterexample: the claim "whenever the write primitive
accepts fewer bytes than requested, `store_file` surfaces an I/O error"
is false — a stdout write of a 10-byte buffer that the primitive accepts
only 3 bytes of returns success (0), for stdout and for a named sink
alike. -/
theorem store_file_short_write_cex :
    ¬ (∀ (s : SinkState) (buf : List Nat) (writeRet : Int),
        0 ≤ writeRet → writeRet < buf.length →
        (store_file s buf writeRet).2 < 0) := by
  intro h
  have := h ⟨true, false, [], [], false, 0⟩ [1, 2, 3, 4, 5, 6, 7, 8, 9, 10] 3
    (by decide) (by decide)
  simp [store_file] at this

/-- Claim C6 (amended): `store_file` surfaces the `-EAGAIN` I/O error
exactly when the underlying write primitive returns a negative value, in
a single attempt with no retry; a short but nonnegative write count is
reported as success and goes undetected. -/
theorem store_file_error_iff_negative (s : SinkState) (buf : List Nat) (writeRet : Int) :
    ((store_file s buf writeRet).2 < 0 ↔ writeRet < 0) ∧
      (0 ≤ writeRet → (store_file s buf writeRet).2 = 0) := by
  have hsnd : (store_file s buf writeRet).2 = if writeRet < 0 then (-11 : Int) else 0 := by
    unfold store_file
    by_cases hs : s.isStdout <;> by_cases hw : writeRet < 0 <;> simp [hs, hw]
  constructor
  · rw [hsnd]
    split_ifs with hw
    · exact ⟨fun _ => hw, fun _ => by norm_num⟩
    · exact ⟨fun hcon => absurd hcon (by norm_num), fun hcon => absurd hcon hw⟩
  · intro hw0
    rw [hsnd]
    simp [show ¬ writeRet < 0 from by omega]

/-- Witness for C6 (amended): a failed stdout write (return -1) yields
the error, and the 3-of-10 short write yields success. -/
theorem store_file_error_iff_negative_witness :
    ((store_file ⟨true, false, [], [], false, 0⟩ [1, 2] (-1)).2 < 0 ↔ (-1 : Int) < 0) ∧
      (store_file ⟨true, false, [], [], false, 0⟩ [1, 2, 3, 4, 5, 6, 7, 8, 9, 10] 3).2 = 0 :=
  ⟨(store_file_error_iff_negative ⟨true, false, [], [], false, 0⟩ [1, 2] (-1)).1,
    (store_file_error_iff_negative ⟨true, false, [], [], false, 0⟩
      [1, 2, 3, 4, 5, 6, 7, 8, 9, 10] 3).2 (by decide)⟩

/-- The named sink before the first `store_file` call of a run: not yet
opened, still holding its pre-existing contents. -/
def init_named_sink (prior : List Nat) : SinkState :=
  { isStdout := false, opened := false, fileContents := prior,
    stdoutWritten := [], umaskCleared := false, openMode := 0 }

/-- A run of fully-accepted `store_file` calls on a sink, one per block,
as `main` performs them. -/
def run_sink : SinkState → List (List Nat) → SinkState
  | s, [] => s
  | s, b :: bs => run_sink (store_file s b (b.length : Int)).1 bs

theorem run_sink_opened (bs : List (List Nat)) :
    ∀ s : SinkState, s.isStdout = false → s.opened = true →
      (run_sink s bs).fileContents = s.fileContents ++ bs.flatten ∧
        (run_sink s bs).opened = true ∧
        (run_sink s bs).isStdout = false ∧
        (run_sink s bs).umaskCleared = s.umaskCleared ∧
        (run_sink s bs).openMode = s.openMode := by
  induction bs with
  | nil => intro s h1 h2; simp [run_sink, h1, h2]
  | cons b rest ih =>
      intro s h1 h2
      have hnn : ¬ ((b.length : Int) < 0) := by
        have : (0 : Int) ≤ (b.length : Int) := Int.ofNat_nonneg b.length
        omega
      have htake : b.take ((b.length : Int)).toNat = b := by
        simp
      have hstep : (store_file s b (b.length : Int)).1 =
          { s with fileContents := s.fileContents ++ b } := by
        simp [store_file, h1, h2, hnn, htake]
      rw [run_sink, hstep]
      have hres := ih { s with fileContents := s.fileContents ++ b }
        (by simpa using h1) (by simpa using h2)
      simpa [List.append_assoc] using hres

/-- Claim C7: starting from a pre-existing named sink, the first
`store_file` call of a run truncates it (with the umask cleared and mode
0666 at creation) before writing, and each later call appends, so after a
nonempty run the file holds exactly the concatenation of the written
blocks — no byte of the prior contents survives. -/
theorem named_sink_truncate_append (prior : List Nat) (bufs : List (List Nat))
    (hne : bufs ≠ []) :
    (run_sink (init_named_sink prior) bufs).fileContents = bufs.flatten ∧
      (run_sink (init_named_sink prior) bufs).umaskCleared = true ∧
      (run_sink (init_named_sink prior) bufs).openMode = 438 := by
  match bufs with
  | b :: rest =>
      have hnn : ¬ ((b.length : Int) < 0) := by
        have : (0 : Int) ≤ (b.length : Int) := Int.ofNat_nonneg b.length
        omega
      have hstep : (store_file (init_named_sink prior) b (b.length : Int)).1 =
          { isStdout := false, opened := true, fileContents := b,
            stdoutWritten := [], umaskCleared := true, openMode := 438 } := by
        simp [store_file, init_named_sink, hnn]
      rw [run_sink, hstep]
      have hres := run_sink_opened rest
        { isStdout := false, opened := true, fileContents := b,
          stdoutWritten := [], umaskCleared := true, openMode := 438 } rfl rfl
      simpa using ⟨hres.1, hres.2.2.2⟩

/-- Witness for C7: a file holding [9, 9, 9] is overwritten by the run
writing [1, 2] then [3]. -/
theorem named_sink_truncate_append_witness :
    (run_sink (init_named_sink [9, 9, 9]) [[1, 2], [3]]).fileContents = [1, 2, 3] ∧
      (run_sink (init_named_sink [9, 9, 9]) [[1, 2], [3]]).umaskCleared = true ∧
      (run_sink (init_named_sink [9, 9, 9]) [[1, 2], [3]]).openMode = 438 := by
  have h := named_sink_truncate_append [9, 9, 9] [[1, 2], [3]] (by simp)
  simpa using h

/-- `read_input` from src/crypt_main.c lines 262-296, over an explicit
buffer.  `chars` is the stream `getchar` yields, its end standing for EOF;
`buffer` is the caller's byte buffer with its previous contents; `i` is
the count of stored characters (the write position).  The loop stops at
EOF, at a newline (10) when not reading from a pipe, or after `maxsize`
stored characters.  After the loop the source assigns the null character
to the local pointer variable `buf` itself — a pointer assignment, not a
store through the pointer — so no terminator byte is written; the
function then returns `i`. -/
def ri_go (pipe : Bool) (maxsize : Nat) : List Nat → List Nat → Nat → List Nat × Nat
  | [], buffer, i => (buffer, i)
  | ch :: rest, buffer, i =>
      if ch = 10 ∧ ¬pipe then (buffer, i)
      else
        let buffer1 := buffer.set i ch
        if i + 1 ≥ maxsize then (buffer1, i + 1)
        else ri_go pipe maxsize rest buffer1 (i + 1)

/-- `read_input`: the loop started at position 0.  Returns the final
buffer contents and the count the function returns. -/
def read_input (pipe : Bool) (maxsize : Nat) (chars buffer : List Nat) : List Nat × Nat :=
  ri_go pipe maxsize chars buffer 0

/-- Claim C9 at a failing input: piping the two bytes `A B` then EOF into
a 3-byte buffer previously holding `[7, 7, 7]` with `maxsize = 10` stores
the two bytes and returns count 2, but the byte after the stored bytes
still holds its old value 7 — no null terminator was appended, because
the source assigns the null character to the pointer variable instead of
storing it through the pointer. -/
theorem read_input_no_terminator :
    read_input true 10 [65, 66] [7, 7, 7] = ([65, 66, 7], 2) ∧
      (read_input true 10 [65, 66] [7, 7, 7]).1.getD 2 0 ≠ 0 := by
  constructor
  · rfl
  · decide
